import Mathlib

/-!
Shallow embedding of `Snnifer_blt.py`, a BLE advertisement sniffer:
record formatters (`_fmt_manu_data`, `_fmt_services`), the CSV log sink
(`CsvWriter`), the console formatter (`print_detection`), the per-event
detection handler (`on_detect`) with its filter policy and last-seen map,
and the scan-lifecycle timing/teardown of `scan_ble` / `main`.

Python strings are modelled as `String`, optional values as `Option`,
machine integers as `Int`/`Nat`, bytes as `Fin 256`, dictionaries as
association lists in insertion-iteration order, and float durations as `ℚ`
(only equality with zero and order comparisons matter to the code).
-/

/-- Python truthiness of an optional string: `None` and `""` are falsy. -/
def strTruthy : Option String → Bool
  | none => false
  | some s => !s.data.isEmpty

/-- Python `a or b` on an optional string `a` with a string default `b`. -/
def pyOrS (a : Option String) (b : String) : String :=
  match a with
  | none => b
  | some s => if s.data.isEmpty then b else s

/-- Character data of a string after Python `str.lower()` (ASCII range). -/
def lowerData (s : String) : List Char :=
  s.data.map Char.toLower

/-- `headMatch n h` holds when the needle `n` is an initial segment of `h`. -/
def headMatch : List Char → List Char → Bool
  | [], _ => true
  | _ :: _, [] => false
  | a :: as, b :: bs => if a = b then headMatch as bs else false

/-- Python substring test `n in h`, on character lists. -/
def occursIn (n : List Char) : List Char → Bool
  | [] => headMatch n []
  | c :: t => headMatch n (c :: t) || occursIn n t

/-- Python format-spec `<w` (left justify to minimum width `w`). -/
def ljust (s : String) (w : Nat) : String :=
  s ++ String.mk (List.replicate (w - s.data.length) ' ')

/-- Python format-spec `>w` (right justify to minimum width `w`). -/
def rjust (s : String) (w : Nat) : String :=
  String.mk (List.replicate (w - s.data.length) ' ') ++ s

/-- CSV cell for an optional integer: `str(i)` or the empty field. -/
def intCell : Option Int → String
  | none => ""
  | some i => toString i

/-- Lower-case hexadecimal digit character for `n < 16`. -/
def hexDigit (n : Nat) : Char :=
  if n < 10 then Char.ofNat (48 + n) else Char.ofNat (87 + n)

/-- Recognizer for the characters `0`-`9` and `a`-`f`. -/
def isLowerHexDigit (c : Char) : Bool :=
  (48 ≤ c.toNat && c.toNat ≤ 57) || (97 ≤ c.toNat && c.toNat ≤ 102)

/-- Digits of Python `"%x" % n`: lower-case hex, no leading zeros, `"0"` for 0. -/
def natHexDigits (n : Nat) : List Char :=
  if _h : n < 16 then [hexDigit n]
  else natHexDigits (n / 16) ++ [hexDigit (n % 16)]
decreasing_by exact Nat.div_lt_self (by omega) (by omega)

/-- Exactly `k` hexadecimal digits of `n` (most significant first). -/
def hexFixed : Nat → Nat → List Char
  | 0, _ => []
  | k + 1, n => hexFixed k (n / 16) ++ [hexDigit (n % 16)]

/-- Python `f"{cid:#06x}"`: `0x`, zero-padding to total width 6, lower-case hex. -/
def pyHexFmt06 (cid : Nat) : String :=
  "0x" ++ String.mk (List.replicate (4 - (natHexDigits cid).length) '0' ++ natHexDigits cid)

/-- Spec-side rendering of a company id as exactly four hex digits. -/
def hexStr4 (n : Nat) : String :=
  String.mk (hexFixed 4 n)

/-- Python `bytes.hex()` of one byte: two lower-case hex digits. -/
def byteHex (b : Fin 256) : List Char :=
  [hexDigit (b.val / 16), hexDigit (b.val % 16)]

/-- Python `payload.hex()`: concatenated two-digit lower-case hex of each byte. -/
def bytesHex (bs : List (Fin 256)) : String :=
  String.mk (bs.flatMap byteHex)

/-- `_fmt_manu_data` from the source: `"-"` for an absent or empty mapping,
else `f"{cid:#06x}:{payload.hex()}"` per entry, comma-joined in the
mapping's iteration order. -/
def _fmt_manu_data : Option (List (Nat × List (Fin 256))) → String
  | none => "-"
  | some manu =>
    if manu.isEmpty then "-"
    else String.intercalate "," (manu.map fun p => pyHexFmt06 p.1 ++ ":" ++ bytesHex p.2)

/-- Lexicographic (code-point) comparison of character lists, the order
Python uses to compare strings. -/
def lexLeChars : List Char → List Char → Bool
  | [], _ => true
  | _ :: _, [] => false
  | a :: as, b :: bs =>
    if a.toNat < b.toNat then true
    else if b.toNat < a.toNat then false
    else lexLeChars as bs

/-- Python string order `a <= b` (code-point lexicographic). -/
def strLe (a b : String) : Prop :=
  lexLeChars a.data b.data = true

instance : DecidableRel strLe :=
  fun a b => instDecidableEqBool (lexLeChars a.data b.data) true

/-- `_fmt_services` from the source: `"-"` for an absent or empty collection,
else `",".join(sorted(uuids))`. -/
def _fmt_services : Option (List String) → String
  | none => "-"
  | some uuids =>
    if uuids.isEmpty then "-"
    else String.intercalate "," (List.insertionSort strLe uuids)

/-- The `CsvWriter` object state: its configured path, whether `_fh` is a
live handle, and whether `_writer` is set. The file on disk is passed
separately as a list of rows (append mode positions at the end; a missing
file behaves as an empty one). -/
structure CsvWriter where
  path : Option String
  fh : Bool
  writer : Bool
deriving DecidableEq

/-- `CsvWriter.__init__`: no handle, no writer. -/
def CsvWriter.init (p : Option String) : CsvWriter :=
  ⟨p, false, false⟩

/-- The fixed header row written when the target is new or empty. -/
def csvHeader : List String :=
  ["timestamp", "address", "name", "rssi", "tx_power", "manufacturer_data", "service_uuids"]

/-- `CsvWriter.open`: `if not self._path: return` — inert for a falsy path
(`None` or the empty string); otherwise acquires the handle and writer and,
only when the target is empty (`tell() == 0` right after an append-mode
open), writes the header row. -/
def CsvWriter.openSink (w : CsvWriter) (f : List (List String)) :
    CsvWriter × List (List String) :=
  if !strTruthy w.path then (w, f)
  else
    let w2 : CsvWriter := { w with fh := true, writer := true }
    if f.isEmpty then (w2, f ++ [csvHeader]) else (w2, f)

/-- The row `CsvWriter.write` appends for one detection. -/
def csvRow (timestamp address : String) (name : Option String)
    (rssi tx_power : Option Int) (manufacturer_data : Option (List (Nat × List (Fin 256))))
    (service_uuids : Option (List String)) : List String :=
  [timestamp, address, pyOrS name "", intCell rssi, intCell tx_power,
    _fmt_manu_data manufacturer_data, _fmt_services service_uuids]

/-- `CsvWriter.write`: a no-op unless `_writer` is set, else appends one row. -/
def CsvWriter.write (w : CsvWriter) (f : List (List String)) (timestamp address : String)
    (name : Option String) (rssi tx_power : Option Int)
    (manufacturer_data : Option (List (Nat × List (Fin 256))))
    (service_uuids : Option (List String)) : List (List String) :=
  if w.writer then
    f ++ [csvRow timestamp address name rssi tx_power manufacturer_data service_uuids]
  else f

/-- `CsvWriter.close`: releases the handle (the returned flag records that a
release happened) and clears both fields, only when `_fh` is live. -/
def CsvWriter.close (w : CsvWriter) : CsvWriter × Bool :=
  if w.fh then ({ w with fh := false, writer := false }, true) else (w, false)

/-- The device object handed to the detection callback: optional `address`
and `mac_address` attributes, optional `name`, optional device-level `rssi`. -/
structure Device where
  address : Option String
  mac_address : Option String
  name : Option String
  rssi : Option Int
deriving DecidableEq

/-- One `AdvertisementData`: optional local name, optional advertisement
RSSI, optional TX power, manufacturer-data mapping, service identifiers. -/
structure AdvertisementData where
  local_name : Option String
  rssi : Option Int
  tx_power : Option Int
  manufacturer_data : Option (List (Nat × List (Fin 256)))
  service_uuids : Option (List String)
deriving DecidableEq

/-- One callback invocation: the device/advertisement pair together with the
two wall-clock strings `_now_iso()` returns during its handling (one for
the console line, one for the CSV row). -/
structure Event where
  tsPrint : String
  tsCsv : String
  device : Device
  adv : AdvertisementData
deriving DecidableEq

/-- Python exceptions raised by the handler; only `TypeError` can occur. -/
inductive PyErr
  | typeError
deriving DecidableEq

/-- `getattr(device, "address", getattr(device, "mac_address", "?"))`. -/
def eventAddr (ev : Event) : String :=
  (ev.device.address).getD ((ev.device.mac_address).getD "?")

/-- `device.name or adv.local_name`: the resolved display name. -/
def eventName (ev : Event) : Option String :=
  if strTruthy ev.device.name then ev.device.name else ev.adv.local_name

/-- `adv.rssi if ... is not None else getattr(device, "rssi", None)`. -/
def eventRssi (ev : Event) : Option Int :=
  match ev.adv.rssi with
  | some r => some r
  | none => ev.device.rssi

/-- `print_detection`: renders the console line. Formatting `None` with the
numeric-style spec `>4` (the RSSI field) raises `TypeError` in Python, so an
absent RSSI yields an error; every other absent field has a placeholder. -/
def print_detection (ts : String) (address : String) (name : Option String)
    (rssi : Option Int) (adv : AdvertisementData) : Except PyErr String :=
  let manu := _fmt_manu_data adv.manufacturer_data
  let services := _fmt_services adv.service_uuids
  let txp := adv.tx_power
  match rssi with
  | none => Except.error PyErr.typeError
  | some r =>
    Except.ok ("[" ++ ts ++ "] " ++ ljust address 20 ++ " RSSI=" ++ rjust (toString r) 4 ++
      " dBm  TX=" ++ rjust (match txp with | some t => toString t | none => "-") 3 ++
      "  Name=" ++ pyOrS name (pyOrS adv.local_name "-") ++
      "  Manu=" ++ manu ++ "  Services=" ++ services)

/-- The Filter Evaluator: the conjunction of "not rejected by the name test"
and "not rejected by the address test", exactly the two early-return guards
of `on_detect`. -/
def accepts (filter_name filter_address : Option String) (name : Option String)
    (addr : String) : Bool :=
  !(strTruthy filter_name &&
      !occursIn (lowerData (filter_name.getD "")) (lowerData (pyOrS name ""))) &&
  !(strTruthy filter_address &&
      !occursIn (lowerData (filter_address.getD "")) (lowerData addr))

/-- The filter applied to one event's resolved name and address. -/
def acceptsEvent (filter_name filter_address : Option String) (ev : Event) : Bool :=
  accepts filter_name filter_address (eventName ev) (eventAddr ev)

/-- `last_seen` membership test for an address key. -/
def hasKey : List (String × Option Int) → String → Bool
  | [], _ => false
  | p :: t, k => if p.1 = k then true else hasKey t k

/-- Python dict assignment `last_seen[addr] = rssi`: replace the entry in
place when the key is present, else append, preserving insertion order. -/
def dictInsert (m : List (String × Option Int)) (k : String) (v : Option Int) :
    List (String × Option Int) :=
  if hasKey m k then m.map (fun p => if p.1 = k then (k, v) else p) else m ++ [(k, v)]

/-- Python dict lookup `last_seen[a]` as an option. -/
def alookup : List (String × Option Int) → String → Option (Option Int)
  | [], _ => none
  | p :: t, k => if p.1 = k then some p.2 else alookup t k

/-- The mutable state `on_detect` touches: the last-seen map, the console
transcript, the CSV writer with its target file, and raised exceptions. -/
structure SnifState where
  lastSeen : List (String × Option Int)
  console : List String
  csvw : CsvWriter
  file : List (List String)
  errors : List PyErr
deriving DecidableEq

/-- `on_detect`: resolve address, name, RSSI; apply the two filter guards
(early return, no effect); then update `last_seen`, print the console line
(recording the `TypeError` when printing raises, in which case the CSV
write on the next source line is never reached), and append the CSV row. -/
def on_detect (filter_name filter_address : Option String) (s : SnifState)
    (ev : Event) : SnifState :=
  let addr := eventAddr ev
  let name := eventName ev
  let rssi := eventRssi ev
  if strTruthy filter_name &&
      !occursIn (lowerData (filter_name.getD "")) (lowerData (pyOrS name "")) then s
  else if strTruthy filter_address &&
      !occursIn (lowerData (filter_address.getD "")) (lowerData addr) then s
  else
    let s1 := { s with lastSeen := dictInsert s.lastSeen addr rssi }
    match print_detection ev.tsPrint addr name rssi ev.adv with
    | Except.error e => { s1 with errors := s1.errors ++ [e] }
    | Except.ok line =>
      { s1 with
        console := s1.console ++ [line],
        file := CsvWriter.write s1.csvw s1.file ev.tsCsv addr name rssi
          ev.adv.tx_power ev.adv.manufacturer_data ev.adv.service_uuids }

/-- The effect of one handler invocation on the last-seen map alone. -/
def stepLastSeen (filter_name filter_address : Option String)
    (m : List (String × Option Int)) (ev : Event) : List (String × Option Int) :=
  if acceptsEvent filter_name filter_address ev then
    dictInsert m (eventAddr ev) (eventRssi ev)
  else m

/-- The session state at scan start: `last_seen = {}`, nothing printed,
no exceptions, the CSV writer and its file as `scan_ble` left them. -/
def initState (w : CsvWriter) (f : List (List String)) : SnifState :=
  ⟨[], [], w, f, []⟩

/-- All handler invocations of one scan session, in delivery order. -/
def runPipeline (filter_name filter_address : Option String) (w : CsvWriter)
    (f : List (List String)) (evs : List Event) : SnifState :=
  evs.foldl (on_detect filter_name filter_address) (initState w f)

/-- What ended the wait: the armed timer or the cancellation trigger. -/
inductive StopCause
  | timer
  | cancel
deriving DecidableEq

/-- Python falsiness of the optional float `duration` (`not duration`,
`duration in (None, 0)`): true for `None` and for `0`. -/
def durFalsy : Option ℚ → Bool
  | none => true
  | some d => d = 0

/-- `main`'s mapping from the parsed arguments to the `duration` argument of
`scan_ble`: `None if continuous else (None if duration == 0 else duration)`. -/
def mainEffectiveDuration (continuous : Bool) (argDuration : ℚ) : Option ℚ :=
  if continuous then none else if argDuration = 0 then none else some argDuration

/-- `asyncio.wait_for(stop_event.wait(), timeout)`: with no timeout only the
cancellation trigger can resolve the wait; with a timeout, whichever of the
deadline and the trigger comes first wins. -/
def raceWait : Option ℚ → Option ℚ → Option (ℚ × StopCause)
  | none, none => none
  | none, some t => some (t, StopCause.cancel)
  | some d, none => some (d, StopCause.timer)
  | some d, some t =>
    if t ≤ d then some (t, StopCause.cancel) else some (d, StopCause.timer)

/-- When and why the `Scanning → Stopping` transition of one `scan_ble`
session happens, given the time (if any) at which the cancellation trigger
fires: the `continuous and duration in (None, 0)` branch waits on the event
alone; the other branch arms `wait_for` with timeout
`None if not duration else duration`. `none` means the session never stops. -/
def sessionStop (continuous : Bool) (duration : Option ℚ) (cancelAt : Option ℚ) :
    Option (ℚ × StopCause) :=
  if continuous && durFalsy duration then
    match cancelAt with
    | none => none
    | some t => some (t, StopCause.cancel)
  else
    raceWait (if durFalsy duration then none else duration) cancelAt

/-- How the wait of a started scan session ended. -/
inductive ExitPathKind
  | timerExpiry
  | cancelTrigger
  | raisedErr
deriving DecidableEq

/-- The lifecycle actions of `scan_ble`, in program order. -/
inductive LifeAct
  | openSink
  | startScan
  | waitEnd (e : ExitPathKind)
  | stopScan
  | closeSink
deriving DecidableEq

/-- The action trace of one `scan_ble` run whose wait ended as `e`: the
body opens the sink and starts the scanner; however the wait ends — timer
expiry, cancellation trigger, or a raised exception — the `finally` block
stops the scanner and only then closes the sink. -/
def scanBleTrace (e : ExitPathKind) : List LifeAct :=
  [LifeAct.openSink, LifeAct.startScan, LifeAct.waitEnd e, LifeAct.stopScan, LifeAct.closeSink]

/-- An action is a scanner start. -/
def isStart : LifeAct → Bool
  | LifeAct.startScan => true
  | _ => false

/-- An action is a scanner stop. -/
def isStop : LifeAct → Bool
  | LifeAct.stopScan => true
  | _ => false

/-- Discovery is active before position `i` of a trace when more starts
than stops have happened among the first `i` actions. -/
def discoveryActive (tr : List LifeAct) (i : Nat) : Bool :=
  (tr.take i).countP isStop < (tr.take i).countP isStart

/-- Spec-side substring relation: `n` occurs contiguously inside `h`. -/
def occursSpec (n h : List Char) : Prop :=
  ∃ p q, h = p ++ n ++ q

/-- A device exposing only an address (no name, no device-level RSSI). -/
def devAddrOnly : Device :=
  ⟨some "AA:BB:CC:DD:EE:FF", none, none, none⟩

/-- An advertisement with every optional field absent, RSSI included. -/
def advNoRssi : AdvertisementData :=
  ⟨none, none, none, none, none⟩

/-- The same advertisement but carrying an RSSI of -50 dBm. -/
def advWithRssi : AdvertisementData :=
  ⟨none, some (-50), none, none, none⟩

/-- A device named `Thermostat`. -/
def devThermo : Device :=
  ⟨some "11:22:33:44:55:66", none, some "Thermostat", some (-40)⟩

/-- A mid-session state: sink open, header already on disk. -/
def stateMid : SnifState :=
  ⟨[], [], ⟨some "log.csv", true, true⟩, [csvHeader], []⟩

/-- The signal strength of the most recent accepted detection for address
`a` in an event sequence, if any: filter by the Filter Evaluator, keep the
events at `a`, take the last one's resolved RSSI. -/
def lastAcceptedRssi (filter_name filter_address : Option String) (evs : List Event)
    (a : String) : Option (Option Int) :=
  (((evs.filter (acceptsEvent filter_name filter_address)).filter
    (fun e => eventAddr e = a)).getLast?).map eventRssi

/-- C1: with the continuous flag set, `main` passes `duration = None` to
`scan_ble` whatever `--duration` said, so the session waits on the
cancellation event alone: it runs unbounded when no trigger fires, the
`Scanning → Stopping` transition is never timer-initiated, and a trigger at
time `T` stops it at `T` regardless of the duration value. -/
theorem C1_continuous_unbounded (argDuration : ℚ) (cancelAt : Option ℚ) :
    sessionStop true (mainEffectiveDuration true argDuration) cancelAt =
      cancelAt.map (fun t => (t, StopCause.cancel)) := by
  cases cancelAt <;> simp [sessionStop, mainEffectiveDuration, durFalsy]

/-- C2: for every configured (nonempty, hence Python-truthy) log-target
path, opening over an empty target writes exactly the header row, so one
`write` yields exactly the header and one data row; opening over a nonempty
target writes no header, so a `write` only appends one data row. -/
theorem C2_header_once (p ts addr : String) (nm : Option String) (rssi txp : Option Int)
    (md : Option (List (Nat × List (Fin 256)))) (su : Option (List String))
    (f : List (List String)) (hp : p ≠ "") :
    (CsvWriter.write (CsvWriter.openSink (CsvWriter.init (some p)) []).1
        (CsvWriter.openSink (CsvWriter.init (some p)) []).2 ts addr nm rssi txp md su =
      [csvHeader, csvRow ts addr nm rssi txp md su]) ∧
    (f ≠ [] →
      CsvWriter.write (CsvWriter.openSink (CsvWriter.init (some p)) f).1
        (CsvWriter.openSink (CsvWriter.init (some p)) f).2 ts addr nm rssi txp md su =
      f ++ [csvRow ts addr nm rssi txp md su]) := by
  have hps : strTruthy (some p) = true := by
    cases p with
    | mk d =>
      cases d with
      | nil => exact absurd rfl hp
      | cons c t => rfl
  constructor
  · simp [CsvWriter.openSink, CsvWriter.init, CsvWriter.write, hps]
  · intro hf
    have hne : f.isEmpty = false := by
      cases f with
      | nil => exact absurd rfl hf
      | cons a t => rfl
    simp [CsvWriter.openSink, CsvWriter.init, CsvWriter.write, hps, hne]

/-- Witness for C2 at a concrete nonempty target and nonempty path. -/
theorem C2_header_once_witness :
    ("log.csv" : String) ≠ "" ∧ [["x"]] ≠ ([] : List (List String)) ∧
    CsvWriter.write (CsvWriter.openSink (CsvWriter.init (some "log.csv")) [["x"]]).1
        (CsvWriter.openSink (CsvWriter.init (some "log.csv")) [["x"]]).2
        "t" "a" none none none none none =
      [["x"]] ++ [csvRow "t" "a" none none none none none] :=
  ⟨by decide, by decide,
    (C2_header_once "log.csv" "t" "a" none none none none none [["x"]]
      (by decide)).2 (by decide)⟩

/-- C9: every operation is a no-op on a pathless sink; `write` and `close`
are no-ops on an unopened or closed sink; `close` on an open sink releases
the handle exactly once, a second `close` releases nothing, and any `write`
after `close` appends nothing and raises nothing (the model is total). -/
theorem C9_sink_noops :
    (∀ f, CsvWriter.openSink (CsvWriter.init none) f = (CsvWriter.init none, f)) ∧
    (∀ f ts addr nm rssi txp md su,
      CsvWriter.write (CsvWriter.init none) f ts addr nm rssi txp md su = f) ∧
    CsvWriter.close (CsvWriter.init none) = (CsvWriter.init none, false) ∧
    (∀ (w : CsvWriter) f ts addr nm rssi txp md su, w.writer = false →
      CsvWriter.write w f ts addr nm rssi txp md su = f) ∧
    (∀ (w : CsvWriter), w.fh = false → CsvWriter.close w = (w, false)) ∧
    (∀ (w : CsvWriter), w.fh = true →
      (CsvWriter.close w).2 = true ∧ (CsvWriter.close w).1.fh = false ∧
      (CsvWriter.close w).1.writer = false ∧
      CsvWriter.close (CsvWriter.close w).1 = ((CsvWriter.close w).1, false) ∧
      ∀ f ts addr nm rssi txp md su,
        CsvWriter.write (CsvWriter.close w).1 f ts addr nm rssi txp md su = f) := by
  refine ⟨fun f => rfl, fun f ts addr nm rssi txp md su => rfl, rfl, ?_, ?_, ?_⟩
  · intro w f ts addr nm rssi txp md su hw
    simp [CsvWriter.write, hw]
  · intro w hw
    simp [CsvWriter.close, hw]
  · intro w hw
    refine ⟨?_, ?_, ?_, ?_, ?_⟩ <;> simp [CsvWriter.close, CsvWriter.write, hw]

/-- Witness for C9: a late `write` after `close` on an opened sink is silent. -/
theorem C9_sink_noops_witness :
    CsvWriter.write (CsvWriter.close (CsvWriter.mk (some "log.csv") true true)).1
      [csvHeader] "t" "a" none none none none none = [csvHeader] :=
  (C9_sink_noops.2.2.2.2.2 (CsvWriter.mk (some "log.csv") true true) rfl).2.2.2.2
    [csvHeader] "t" "a" none none none none none

/-- C6: on every exit path of a started session — timer expiry, cancellation,
or a raised exception — the trace stops discovery strictly before closing
the sink, and at the moment the sink is closed discovery is inactive. -/
theorem C6_stop_before_close (e : ExitPathKind) :
    (∃ i j : Nat, i < j ∧ (scanBleTrace e)[i]? = some LifeAct.stopScan ∧
      (scanBleTrace e)[j]? = some LifeAct.closeSink) ∧
    ∀ i, (scanBleTrace e)[i]? = some LifeAct.closeSink →
      discoveryActive (scanBleTrace e) i = false := by
  refine ⟨⟨3, 4, by omega, rfl, rfl⟩, ?_⟩
  intro i hi
  match i with
  | 0 | 1 | 2 | 3 => simp [scanBleTrace] at hi
  | 4 => rfl
  | n + 5 => simp [scanBleTrace] at hi

/-- Witness for C6 on the cancellation exit path at the closing position. -/
theorem C6_stop_before_close_witness :
    discoveryActive (scanBleTrace ExitPathKind.cancelTrigger) 4 = false :=
  (C6_stop_before_close ExitPathKind.cancelTrigger).2 4 rfl

/-- C10: an accepted event whose advertisement and device both lack an RSSI
reaches `print_detection` with `None`, whose `>4` format spec raises
`TypeError`: `last_seen` is already updated, nothing is printed, the CSV
write is never reached. The same event with an RSSI but still lacking name,
TX power, manufacturer data and services prints placeholders and raises
nothing. -/
theorem C10_none_rssi_type_error :
    acceptsEvent none none ⟨"t1", "t2", devAddrOnly, advNoRssi⟩ = true ∧
    eventRssi ⟨"t1", "t2", devAddrOnly, advNoRssi⟩ = none ∧
    print_detection "t1" "AA:BB:CC:DD:EE:FF" none none advNoRssi =
      Except.error PyErr.typeError ∧
    on_detect none none stateMid ⟨"t1", "t2", devAddrOnly, advNoRssi⟩ =
      { stateMid with
        lastSeen := [("AA:BB:CC:DD:EE:FF", none)],
        errors := [PyErr.typeError] } ∧
    on_detect none none stateMid ⟨"t1", "t2", devAddrOnly, advWithRssi⟩ =
      { stateMid with
        lastSeen := [("AA:BB:CC:DD:EE:FF", some (-50))],
        console :=
          ["[t1] AA:BB:CC:DD:EE:FF    RSSI= -50 dBm  TX=  -  Name=-  Manu=-  Services=-"],
        file := stateMid.file ++
          [["t2", "AA:BB:CC:DD:EE:FF", "", "-50", "", "-", "-"]] } :=
  ⟨rfl, rfl, rfl, by decide, by decide⟩

/-- `headMatch` decides "the needle is an initial segment of the haystack". -/
theorem headMatch_iff (n : List Char) : ∀ h : List Char,
    headMatch n h = true ↔ ∃ q, h = n ++ q := by
  induction n with
  | nil => intro h; simp [headMatch]
  | cons a as ih =>
    intro h
    cases h with
    | nil =>
      simp [headMatch]
    | cons b bs =>
      simp only [headMatch]
      by_cases hab : a = b
      · subst hab
        rw [if_pos rfl, ih bs]
        constructor
        · rintro ⟨q, hq⟩
          exact ⟨q, by simp [hq]⟩
        · rintro ⟨q, hq⟩
          rw [List.cons_append] at hq
          injection hq with _ h2
          exact ⟨q, h2⟩
      · rw [if_neg hab]
        constructor
        · intro hfalse
          simp at hfalse
        · rintro ⟨q, hq⟩
          rw [List.cons_append] at hq
          injection hq with h1 _
          exact absurd h1.symm hab

/-- `occursIn` decides the Python substring relation. -/
theorem occursIn_iff (n : List Char) : ∀ h : List Char,
    occursIn n h = true ↔ occursSpec n h := by
  intro h
  induction h with
  | nil =>
    rw [show occursIn n [] = headMatch n [] from rfl, headMatch_iff]
    constructor
    · rintro ⟨q, hq⟩
      exact ⟨[], q, by simp [hq]⟩
    · rintro ⟨p, q, hpq⟩
      have h1 : p ++ n = [] ∧ q = [] := List.append_eq_nil.mp hpq.symm
      have h2 : p = [] ∧ n = [] := List.append_eq_nil.mp h1.1
      exact ⟨[], by simp [h2.2]⟩
  | cons c t ih =>
    rw [show occursIn n (c :: t) = (headMatch n (c :: t) || occursIn n t) from rfl,
      Bool.or_eq_true, headMatch_iff, ih]
    constructor
    · rintro (⟨q, hq⟩ | ⟨p, q, hpq⟩)
      · exact ⟨[], q, by simp [hq]⟩
      · exact ⟨c :: p, q, by simp [hpq]⟩
    · rintro ⟨p, q, hpq⟩
      cases p with
      | nil =>
        exact Or.inl ⟨q, by simpa using hpq⟩
      | cons c' p' =>
        rw [List.cons_append, List.cons_append] at hpq
        injection hpq with _ h2
        exact Or.inr ⟨p', q, h2⟩

/-- One factor of the filter: the guarded test passes exactly when every set
value of the optional filter occurs (lower-cased) in the haystack. -/
theorem filterFactor_iff (o : Option String) (h : List Char) :
    (!(strTruthy o && !occursIn (lowerData (o.getD "")) h)) = true ↔
      ∀ f, o = some f → occursSpec (lowerData f) h := by
  cases o with
  | none => simp [strTruthy]
  | some s =>
    by_cases hs : s.data.isEmpty
    · have hnil : s.data = [] := List.isEmpty_iff.mp hs
      simp only [strTruthy, hs, Bool.not_true, Bool.false_and, Bool.not_false,
        Option.some.injEq, true_iff]
      intro f hf
      subst hf
      exact ⟨[], h, by simp [lowerData, hnil]⟩
    · simp only [strTruthy, hs, Bool.not_false, Bool.true_and, Bool.not_not,
        Option.getD_some, occursIn_iff, Option.some.injEq]
      constructor
      · intro hocc f hf
        subst hf
        exact hocc
      · intro hall
        exact hall s rfl

/-- The Filter Evaluator characterized: `accepts` holds exactly when both
the name constraint and the address constraint hold. -/
theorem accepts_iff (fn fa nm : Option String) (addr : String) :
    accepts fn fa nm addr = true ↔
      (∀ f, fn = some f → occursSpec (lowerData f) (lowerData (pyOrS nm ""))) ∧
      (∀ f, fa = some f → occursSpec (lowerData f) (lowerData addr)) := by
  rw [show accepts fn fa nm addr =
    ((!(strTruthy fn && !occursIn (lowerData (fn.getD "")) (lowerData (pyOrS nm "")))) &&
     (!(strTruthy fa && !occursIn (lowerData (fa.getD "")) (lowerData addr)))) from rfl]
  rw [Bool.and_eq_true]
  exact and_congr (filterFactor_iff fn _) (filterFactor_iff fa _)

/-- C3: the filter accepts exactly when both constraints hold — each set
filter substring, lower-cased, occurs within the lower-cased resolved name
(absent name treated as empty) respectively address; with both unset every
event passes; name-filter `beacon` accepts `MyBeacon2000`, rejects
`Thermostat`. -/
theorem C3_filter_policy (fn fa nm : Option String) (addr : String) :
    (accepts fn fa nm addr = true ↔
      (∀ f, fn = some f → occursSpec (lowerData f) (lowerData (pyOrS nm ""))) ∧
      (∀ f, fa = some f → occursSpec (lowerData f) (lowerData addr))) ∧
    accepts none none nm addr = true ∧
    accepts (some "beacon") none (some "MyBeacon2000") addr = true ∧
    accepts (some "beacon") none (some "Thermostat") addr = false :=
  ⟨accepts_iff fn fa nm addr, rfl, rfl, rfl⟩

/-- Witness for C3: the name filter `beacon` on `MyBeacon2000`. -/
theorem C3_filter_policy_witness :
    accepts (some "beacon") none (some "MyBeacon2000") "AA:BB" = true ∧
    occursSpec (lowerData "beacon") (lowerData (pyOrS (some "MyBeacon2000") "")) :=
  ⟨(C3_filter_policy (some "beacon") none (some "MyBeacon2000") "AA:BB").2.2.1,
    ((C3_filter_policy (some "beacon") none (some "MyBeacon2000") "AA:BB").1.mp
      (by decide)).1 "beacon" rfl⟩

/-- C4: a rejected event leaves the whole state untouched: no console line,
no sink write, no last-seen entry, no exception. -/
theorem C4_reject_no_effect (fn fa : Option String) (s : SnifState) (ev : Event)
    (hrej : acceptsEvent fn fa ev = false) : on_detect fn fa s ev = s := by
  cases hg1 : (strTruthy fn &&
      !occursIn (lowerData (fn.getD "")) (lowerData (pyOrS (eventName ev) ""))) with
  | true =>
    simp [on_detect, hg1]
  | false =>
    cases hg2 : (strTruthy fa &&
        !occursIn (lowerData (fa.getD "")) (lowerData (eventAddr ev))) with
    | true =>
      simp [on_detect, hg1, hg2]
    | false =>
      exfalso
      rw [show acceptsEvent fn fa ev =
        ((!(strTruthy fn &&
          !occursIn (lowerData (fn.getD "")) (lowerData (pyOrS (eventName ev) "")))) &&
         (!(strTruthy fa &&
          !occursIn (lowerData (fa.getD "")) (lowerData (eventAddr ev))))) from rfl,
        hg1, hg2] at hrej
      simp at hrej

/-- Witness for C4: a `Thermostat` event rejected by the `beacon` filter. -/
theorem C4_reject_no_effect_witness :
    acceptsEvent (some "beacon") none ⟨"t1", "t2", devThermo, advWithRssi⟩ = false ∧
    on_detect (some "beacon") none stateMid ⟨"t1", "t2", devThermo, advWithRssi⟩ = stateMid :=
  ⟨by decide,
    C4_reject_no_effect (some "beacon") none stateMid ⟨"t1", "t2", devThermo, advWithRssi⟩
      (by decide)⟩

/-- Characters with equal code points are equal. -/
theorem char_eq_of_toNat_eq {a b : Char} (h : a.toNat = b.toNat) : a = b :=
  Char.ext (UInt32.eq_of_val_eq (Fin.ext h))

/-- The code-point lexicographic comparison is total. -/
theorem lexLeChars_total : ∀ l1 l2 : List Char,
    lexLeChars l1 l2 = true ∨ lexLeChars l2 l1 = true := by
  intro l1
  induction l1 with
  | nil => intro l2; exact Or.inl rfl
  | cons a as ih =>
    intro l2
    cases l2 with
    | nil => exact Or.inr rfl
    | cons b bs =>
      by_cases h1 : a.toNat < b.toNat
      · left
        simp only [lexLeChars]
        rw [if_pos h1]
      · by_cases h2 : b.toNat < a.toNat
        · right
          simp only [lexLeChars]
          rw [if_pos h2]
        · rcases ih bs with h | h
          · left
            simp only [lexLeChars]
            rw [if_neg h1, if_neg h2]
            exact h
          · right
            simp only [lexLeChars]
            rw [if_neg h2, if_neg h1]
            exact h

/-- The code-point lexicographic comparison is transitive. -/
theorem lexLeChars_trans : ∀ l1 l2 l3 : List Char,
    lexLeChars l1 l2 = true → lexLeChars l2 l3 = true → lexLeChars l1 l3 = true := by
  intro l1
  induction l1 with
  | nil => intro l2 l3 _ _; rfl
  | cons a as ih =>
    intro l2 l3 h12 h23
    cases l2 with
    | nil => simp [lexLeChars] at h12
    | cons b bs =>
      cases l3 with
      | nil => simp [lexLeChars] at h23
      | cons c cs =>
        simp only [lexLeChars] at h12 h23 ⊢
        by_cases hab : a.toNat < b.toNat
        · rw [if_pos hab] at h12
          by_cases hbc : b.toNat < c.toNat
          · rw [if_pos (by omega : a.toNat < c.toNat)]
          · rw [if_neg hbc] at h23
            by_cases hcb : c.toNat < b.toNat
            · rw [if_pos hcb] at h23; exact absurd h23 (by simp)
            · rw [if_pos (by omega : a.toNat < c.toNat)]
        · rw [if_neg hab] at h12
          by_cases hba : b.toNat < a.toNat
          · rw [if_pos hba] at h12; exact absurd h12 (by simp)
          · rw [if_neg hba] at h12
            by_cases hbc : b.toNat < c.toNat
            · rw [if_pos (by omega : a.toNat < c.toNat)]
            · rw [if_neg hbc] at h23
              by_cases hcb : c.toNat < b.toNat
              · rw [if_pos hcb] at h23; exact absurd h23 (by simp)
              · rw [if_neg hcb] at h23
                rw [if_neg (by omega : ¬a.toNat < c.toNat),
                  if_neg (by omega : ¬c.toNat < a.toNat)]
                exact ih bs cs h12 h23

/-- The code-point lexicographic comparison is antisymmetric. -/
theorem lexLeChars_antisymm : ∀ l1 l2 : List Char,
    lexLeChars l1 l2 = true → lexLeChars l2 l1 = true → l1 = l2 := by
  intro l1
  induction l1 with
  | nil =>
    intro l2 _ h21
    cases l2 with
    | nil => rfl
    | cons b bs => simp [lexLeChars] at h21
  | cons a as ih =>
    intro l2 h12 h21
    cases l2 with
    | nil => simp [lexLeChars] at h12
    | cons b bs =>
      simp only [lexLeChars] at h12 h21
      by_cases hab : a.toNat < b.toNat
      · rw [if_neg (by omega : ¬b.toNat < a.toNat), if_pos hab] at h21
        exact absurd h21 (by simp)
      · by_cases hba : b.toNat < a.toNat
        · rw [if_neg hab, if_pos hba] at h12
          exact absurd h12 (by simp)
        · rw [if_neg hab, if_neg hba] at h12
          rw [if_neg hba, if_neg hab] at h21
          rw [char_eq_of_toNat_eq (by omega : a.toNat = b.toNat), ih bs h12 h21]

instance : IsTotal String strLe :=
  ⟨fun a b => lexLeChars_total a.data b.data⟩

instance : IsTrans String strLe :=
  ⟨fun a b c => lexLeChars_trans a.data b.data c.data⟩

instance : IsAntisymm String strLe :=
  ⟨fun a b h1 h2 => by
    cases a with
    | mk da =>
      cases b with
      | mk db =>
        rw [lexLeChars_antisymm da db h1 h2]⟩

/-- A nonempty service collection formats to the comma-join of its sort. -/
theorem fmt_services_of_ne_nil {l : List String} (h : l.isEmpty = false) :
    _fmt_services (some l) = String.intercalate "," (List.insertionSort strLe l) := by
  simp only [_fmt_services, h, Bool.false_eq_true, if_false]

/-- C7: an absent or empty service collection formats to `"-"`; a nonempty
one formats to the comma-join of a lexicographically sorted permutation of
the input, and the output is invariant under permutation of the input. -/
theorem C7_services_canonical :
    _fmt_services none = "-" ∧ _fmt_services (some []) = "-" ∧
    (∀ l : List String, l ≠ [] →
      _fmt_services (some l) = String.intercalate "," (List.insertionSort strLe l) ∧
      List.Sorted strLe (List.insertionSort strLe l) ∧
      (List.insertionSort strLe l).Perm l) ∧
    (∀ l l2 : List String, l.Perm l2 →
      _fmt_services (some l) = _fmt_services (some l2)) := by
  refine ⟨rfl, rfl, ?_, ?_⟩
  · intro l hl
    have hne : l.isEmpty = false := by
      cases l with
      | nil => exact absurd rfl hl
      | cons a t => rfl
    exact ⟨fmt_services_of_ne_nil hne, List.sorted_insertionSort strLe l,
      List.perm_insertionSort strLe l⟩
  · intro l l2 hperm
    cases l with
    | nil =>
      rw [hperm.symm.eq_nil]
    | cons a t =>
      cases l2 with
      | nil => exact absurd hperm.eq_nil (by simp)
      | cons b t2 =>
        have hsort : List.insertionSort strLe (a :: t) = List.insertionSort strLe (b :: t2) :=
          List.eq_of_perm_of_sorted
            (((List.perm_insertionSort strLe (a :: t)).trans hperm).trans
              (List.perm_insertionSort strLe (b :: t2)).symm)
            (List.sorted_insertionSort strLe (a :: t))
            (List.sorted_insertionSort strLe (b :: t2))
        rw [@fmt_services_of_ne_nil (a :: t) rfl, @fmt_services_of_ne_nil (b :: t2) rfl, hsort]

/-- Witness for C7: two permutations of the same two services format alike. -/
theorem C7_services_canonical_witness :
    (["b", "a"] : List String) ≠ [] ∧
    _fmt_services (some ["b", "a"]) = _fmt_services (some ["a", "b"]) :=
  ⟨by decide,
    C7_services_canonical.2.2.2 ["b", "a"] ["a", "b"] (List.Perm.swap "a" "b" [])⟩

/-- `hexFixed` always produces exactly `k` digits. -/
theorem hexFixed_length : ∀ (k n : Nat), (hexFixed k n).length = k := by
  intro k
  induction k with
  | zero => intro n; rfl
  | succ k ih =>
    intro n
    simp only [hexFixed, List.length_append, ih (n / 16), List.length_singleton]

/-- `hexFixed` of zero is a run of `'0'` characters. -/
theorem hexFixed_zero : ∀ k : Nat, hexFixed k 0 = List.replicate k '0' := by
  intro k
  induction k with
  | zero => rfl
  | succ k ih =>
    show hexFixed k (0 / 16) ++ [hexDigit (0 % 16)] = _
    rw [Nat.zero_div, ih, List.replicate_succ']
    rfl

/-- Zero-padding the bare hex digits of `n` to width `k + 1` gives exactly
the fixed-width digits, provided `n` fits. -/
theorem natHexDigits_pad : ∀ (k n : Nat), n < 16 ^ (k + 1) →
    List.replicate (k + 1 - (natHexDigits n).length) '0' ++ natHexDigits n =
      hexFixed (k + 1) n := by
  intro k
  induction k with
  | zero =>
    intro n hn
    have h16 : n < 16 := by simpa using hn
    rw [natHexDigits, dif_pos h16]
    show [hexDigit n] = hexFixed 0 (n / 16) ++ [hexDigit (n % 16)]
    rw [Nat.mod_eq_of_lt h16]
    rfl
  | succ k ih =>
    intro n hn
    by_cases h16 : n < 16
    · rw [natHexDigits, dif_pos h16]
      show List.replicate (k + 2 - 1) '0' ++ [hexDigit n] =
        hexFixed (k + 1) (n / 16) ++ [hexDigit (n % 16)]
      rw [Nat.div_eq_of_lt h16, Nat.mod_eq_of_lt h16, hexFixed_zero]
      rfl
    · rw [natHexDigits, dif_neg h16]
      have hdiv : n / 16 < 16 ^ (k + 1) := by
        rw [Nat.div_lt_iff_lt_mul (by omega : 0 < 16)]
        calc n < 16 ^ (k + 1 + 1) := hn
        _ = 16 ^ (k + 1) * 16 := by rw [pow_succ]
      have hlen : (natHexDigits (n / 16) ++ [hexDigit (n % 16)]).length =
          (natHexDigits (n / 16)).length + 1 := by
        rw [List.length_append, List.length_singleton]
      rw [hlen, Nat.succ_sub_succ, ← List.append_assoc, ih (n / 16) hdiv]
      rfl

/-- For a company id below `2 ^ 16`, the Python `#06x` rendering is `0x`
followed by exactly four hex digits. -/
theorem pyHexFmt06_eq_hexStr4 (cid : Nat) (h : cid < 65536) :
    pyHexFmt06 cid = "0x" ++ hexStr4 cid := by
  have hpad := natHexDigits_pad 3 cid (by norm_num; omega)
  show "0x" ++ String.mk (List.replicate (4 - (natHexDigits cid).length) '0' ++
    natHexDigits cid) = "0x" ++ String.mk (hexFixed 4 cid)
  rw [show (4 : Nat) = 3 + 1 from rfl, hpad]

/-- Every digit character `hexDigit` emits for an in-range value is a
lower-case hex digit. -/
theorem hexDigit_isLower : ∀ m : Nat, m < 16 → isLowerHexDigit (hexDigit m) = true := by
  decide

/-- Every character of a fixed-width hex rendering is a lower-case hex digit. -/
theorem hexFixed_chars : ∀ (k n : Nat), ∀ c ∈ hexFixed k n, isLowerHexDigit c = true := by
  intro k
  induction k with
  | zero => intro n c hc; simp [hexFixed] at hc
  | succ k ih =>
    intro n c hc
    rcases List.mem_append.mp hc with h | h
    · exact ih (n / 16) c h
    · rw [List.mem_singleton.mp h]
      exact hexDigit_isLower (n % 16) (Nat.mod_lt n (by omega))

/-- Every character of a payload's hex encoding is a lower-case hex digit. -/
theorem bytesHex_chars : ∀ (bs : List (Fin 256)), ∀ c ∈ (bytesHex bs).data,
    isLowerHexDigit c = true := by
  intro bs c hc
  have hc' : c ∈ bs.flatMap byteHex := hc
  rcases List.mem_flatMap.mp hc' with ⟨b, _, hcb⟩
  have hb : b.val < 256 := b.isLt
  rcases List.mem_cons.mp hcb with h | h
  · rw [h]
    exact hexDigit_isLower (b.val / 16) (by omega)
  · rw [List.mem_singleton.mp h]
    exact hexDigit_isLower (b.val % 16) (Nat.mod_lt b.val (by omega))

/-- C8: an absent or empty manufacturer-data mapping formats to `"-"`; a
nonempty mapping whose company ids are below `2 ^ 16` formats each entry as
`0x`, exactly four lower-case hex digits of the company id, a colon, and the
lower-case hex encoding of the payload bytes, comma-joined in iteration
order. -/
theorem C8_manu_format :
    _fmt_manu_data none = "-" ∧ _fmt_manu_data (some []) = "-" ∧
    ∀ l : List (Nat × List (Fin 256)), l ≠ [] → (∀ p ∈ l, p.1 < 65536) →
      (_fmt_manu_data (some l) =
        String.intercalate "," (l.map fun p => "0x" ++ hexStr4 p.1 ++ ":" ++ bytesHex p.2)) ∧
      ∀ p ∈ l, (hexStr4 p.1).length = 4 ∧
        (∀ c ∈ (hexStr4 p.1).data, isLowerHexDigit c = true) ∧
        (∀ c ∈ (bytesHex p.2).data, isLowerHexDigit c = true) := by
  refine ⟨rfl, rfl, ?_⟩
  intro l hl hcid
  constructor
  · have hne : l.isEmpty = false := by
      cases l with
      | nil => exact absurd rfl hl
      | cons a t => rfl
    have hmap : (l.map fun p => pyHexFmt06 p.1 ++ ":" ++ bytesHex p.2) =
        l.map fun p => "0x" ++ hexStr4 p.1 ++ ":" ++ bytesHex p.2 := by
      apply List.map_congr_left
      intro p hp
      rw [pyHexFmt06_eq_hexStr4 p.1 (hcid p hp)]
    simp only [_fmt_manu_data, hne, Bool.false_eq_true, if_false, hmap]
  · intro p hp
    refine ⟨?_, ?_, bytesHex_chars p.2⟩
    · show (hexFixed 4 p.1).length = 4
      exact hexFixed_length 4 p.1
    · intro c hc
      exact hexFixed_chars 4 p.1 c hc

/-- Witness for C8: Apple's company id `0x004c` with payload bytes
`02 15`. -/
theorem C8_manu_format_witness :
    ([((76 : Nat), [(2 : Fin 256), 21])] : List (Nat × List (Fin 256))) ≠ [] ∧
    _fmt_manu_data (some [((76 : Nat), [(2 : Fin 256), 21])]) =
      String.intercalate ","
        ([((76 : Nat), [(2 : Fin 256), 21])].map fun p =>
          "0x" ++ hexStr4 p.1 ++ ":" ++ bytesHex p.2) :=
  ⟨by decide,
    (C8_manu_format.2.2 [((76 : Nat), [(2 : Fin 256), 21])] (by decide)
      (by decide)).1⟩

/-- Looking up a key the map does not hold yields nothing. -/
theorem alookup_of_hasKey_false (k : String) :
    ∀ m : List (String × Option Int), hasKey m k = false → alookup m k = none := by
  intro m
  induction m with
  | nil => intro _; rfl
  | cons p t ih =>
    intro hk
    by_cases hp : p.1 = k
    · rw [show hasKey (p :: t) k = if p.1 = k then true else hasKey t k from rfl,
        if_pos hp] at hk
      simp at hk
    · rw [show hasKey (p :: t) k = if p.1 = k then true else hasKey t k from rfl,
        if_neg hp] at hk
      rw [show alookup (p :: t) k = if p.1 = k then some p.2 else alookup t k from rfl,
        if_neg hp]
      exact ih hk

/-- Appending a fresh binding behaves like a pointwise map update. -/
theorem alookup_append_single (k : String) (v : Option Int) :
    ∀ m : List (String × Option Int), hasKey m k = false →
      ∀ a, alookup (m ++ [(k, v)]) a = if a = k then some v else alookup m a := by
  intro m
  induction m with
  | nil =>
    intro _ a
    by_cases ha : a = k
    · rw [if_pos ha, List.nil_append,
        show alookup [(k, v)] a = if k = a then some v else alookup [] a from rfl,
        if_pos ha.symm]
    · rw [if_neg ha, List.nil_append,
        show alookup [(k, v)] a = if k = a then some v else alookup [] a from rfl,
        if_neg (fun h => ha h.symm)]
  | cons p t ih =>
    intro hk a
    have hp : ¬ p.1 = k := by
      intro hc
      rw [show hasKey (p :: t) k = if p.1 = k then true else hasKey t k from rfl,
        if_pos hc] at hk
      simp at hk
    have ht : hasKey t k = false := by
      rw [show hasKey (p :: t) k = if p.1 = k then true else hasKey t k from rfl,
        if_neg hp] at hk
      exact hk
    rw [List.cons_append,
      show alookup (p :: (t ++ [(k, v)])) a =
        if p.1 = a then some p.2 else alookup (t ++ [(k, v)]) a from rfl,
      show alookup (p :: t) a = if p.1 = a then some p.2 else alookup t a from rfl]
    by_cases hpa : p.1 = a
    · have hak : ¬ a = k := fun hc => hp (hpa.trans hc)
      rw [if_pos hpa, if_neg hak, if_pos hpa]
    · rw [if_neg hpa, if_neg hpa, ih ht a]

/-- Replacing the binding of `k` in place does not change other lookups. -/
theorem alookup_map_replace_ne (k : String) (v : Option Int) (a : String) (ha : ¬ a = k) :
    ∀ m : List (String × Option Int),
      alookup (m.map fun p => if p.1 = k then (k, v) else p) a = alookup m a := by
  intro m
  induction m with
  | nil => rfl
  | cons p t ih =>
    rw [List.map_cons]
    by_cases hp : p.1 = k
    · rw [if_pos hp,
        show alookup ((k, v) :: t.map fun p => if p.1 = k then (k, v) else p) a =
          if k = a then some v else alookup (t.map fun p => if p.1 = k then (k, v) else p) a
          from rfl,
        show alookup (p :: t) a = if p.1 = a then some p.2 else alookup t a from rfl,
        if_neg (fun h => ha h.symm), if_neg (fun h => ha (hp ▸ h).symm)]
      exact ih
    · rw [if_neg hp,
        show alookup (p :: t.map fun p => if p.1 = k then (k, v) else p) a =
          if p.1 = a then some p.2 else alookup (t.map fun p => if p.1 = k then (k, v) else p) a
          from rfl,
        show alookup (p :: t) a = if p.1 = a then some p.2 else alookup t a from rfl]
      by_cases hpa : p.1 = a
      · rw [if_pos hpa, if_pos hpa]
      · rw [if_neg hpa, if_neg hpa]
        exact ih

/-- Replacing the binding of a present key in place makes its lookup `v`. -/
theorem alookup_map_replace_eq (k : String) (v : Option Int) :
    ∀ m : List (String × Option Int), hasKey m k = true →
      alookup (m.map fun p => if p.1 = k then (k, v) else p) k = some v := by
  intro m
  induction m with
  | nil => intro hk; simp [hasKey] at hk
  | cons p t ih =>
    intro hk
    rw [List.map_cons]
    by_cases hp : p.1 = k
    · rw [if_pos hp,
        show alookup ((k, v) :: t.map fun p => if p.1 = k then (k, v) else p) k =
          if k = k then some v else alookup (t.map fun p => if p.1 = k then (k, v) else p) k
          from rfl,
        if_pos rfl]
    · have ht : hasKey t k = true := by
        rw [show hasKey (p :: t) k = if p.1 = k then true else hasKey t k from rfl,
          if_neg hp] at hk
        exact hk
      rw [if_neg hp,
        show alookup (p :: t.map fun p => if p.1 = k then (k, v) else p) k =
          if p.1 = k then some p.2 else alookup (t.map fun p => if p.1 = k then (k, v) else p) k
          from rfl,
        if_neg hp]
      exact ih ht

/-- Python dict assignment, observed through lookup. -/
theorem alookup_dictInsert (m : List (String × Option Int)) (k : String) (v : Option Int)
    (a : String) : alookup (dictInsert m k v) a = if a = k then some v else alookup m a := by
  unfold dictInsert
  by_cases hk : hasKey m k = true
  · rw [if_pos hk]
    by_cases ha : a = k
    · subst ha
      rw [if_pos rfl]
      exact alookup_map_replace_eq a v m hk
    · rw [if_neg ha]
      exact alookup_map_replace_ne k v a ha m
  · have hk' : hasKey m k = false := by
      cases hkk : hasKey m k with
      | true => exact absurd hkk hk
      | false => rfl
    rw [if_neg hk]
    exact alookup_append_single k v m hk' a

/-- In-place replacement keeps the key list unchanged. -/
theorem keys_map_replace (k : String) (v : Option Int) :
    ∀ m : List (String × Option Int),
      (m.map fun p => if p.1 = k then (k, v) else p).map Prod.fst = m.map Prod.fst := by
  intro m
  induction m with
  | nil => rfl
  | cons p t ih =>
    rw [List.map_cons, List.map_cons, List.map_cons]
    by_cases hp : p.1 = k
    · rw [if_pos hp, ih]
      show k :: _ = p.1 :: _
      rw [hp]
    · rw [if_neg hp, ih]

/-- A key the membership test rejects is not among the keys. -/
theorem notMem_keys_of_hasKey_false (k : String) :
    ∀ m : List (String × Option Int), hasKey m k = false → k ∉ m.map Prod.fst := by
  intro m
  induction m with
  | nil => intro _; simp
  | cons p t ih =>
    intro hk hmem
    by_cases hp : p.1 = k
    · rw [show hasKey (p :: t) k = if p.1 = k then true else hasKey t k from rfl,
        if_pos hp] at hk
      simp at hk
    · have ht : hasKey t k = false := by
        rw [show hasKey (p :: t) k = if p.1 = k then true else hasKey t k from rfl,
          if_neg hp] at hk
        exact hk
      rw [List.map_cons, List.mem_cons] at hmem
      rcases hmem with h | h
      · exact hp h.symm
      · exact ih ht h

/-- Dict assignment preserves key distinctness. -/
theorem nodup_dictInsert (m : List (String × Option Int)) (k : String) (v : Option Int)
    (h : (m.map Prod.fst).Nodup) : ((dictInsert m k v).map Prod.fst).Nodup := by
  unfold dictInsert
  by_cases hk : hasKey m k = true
  · rw [if_pos hk, keys_map_replace]
    exact h
  · have hk' : hasKey m k = false := by
      cases hkk : hasKey m k with
      | true => exact absurd hkk hk
      | false => rfl
    rw [if_neg hk, List.map_append]
    refine List.nodup_append.mpr ⟨h, List.nodup_singleton _, ?_⟩
    intro x hx hx2
    have hxk : x = k := by simpa using hx2
    subst hxk
    exact notMem_keys_of_hasKey_false x m hk' hx

/-- Appending one event updates the most-recent-accepted-RSSI spec pointwise. -/
theorem lastAcceptedRssi_append (fn fa : Option String) (evs : List Event) (e : Event)
    (a : String) :
    lastAcceptedRssi fn fa (evs ++ [e]) a =
      if acceptsEvent fn fa e = true ∧ eventAddr e = a then some (eventRssi e)
      else lastAcceptedRssi fn fa evs a := by
  unfold lastAcceptedRssi
  rw [List.filter_append]
  by_cases hA : acceptsEvent fn fa e = true
  · rw [show List.filter (acceptsEvent fn fa) [e] = [e] from by simp [hA],
      List.filter_append]
    by_cases ha : eventAddr e = a
    · rw [show List.filter (fun e2 => decide (eventAddr e2 = a)) [e] = [e] from by simp [ha],
        List.getLast?_concat, if_pos ⟨hA, ha⟩]
      rfl
    · rw [show List.filter (fun e2 => decide (eventAddr e2 = a)) [e] = [] from by simp [ha],
        List.append_nil, if_neg (fun hc => ha hc.2)]
  · rw [show List.filter (acceptsEvent fn fa) [e] = [] from by simp [hA],
      List.append_nil, if_neg (fun hc => hA hc.1)]

/-- One handler invocation changes the last-seen map exactly by
`stepLastSeen`: nothing on reject, a dict assignment on accept, whether or
not printing raised. -/
theorem on_detect_lastSeen (fn fa : Option String) (s : SnifState) (ev : Event) :
    (on_detect fn fa s ev).lastSeen = stepLastSeen fn fa s.lastSeen ev := by
  unfold on_detect stepLastSeen acceptsEvent accepts
  cases hg1 : (strTruthy fn &&
      !occursIn (lowerData (fn.getD "")) (lowerData (pyOrS (eventName ev) ""))) with
  | true => simp [hg1]
  | false =>
    cases hg2 : (strTruthy fa &&
        !occursIn (lowerData (fa.getD "")) (lowerData (eventAddr ev))) with
    | true => simp [hg1, hg2]
    | false =>
      cases hpd : print_detection ev.tsPrint (eventAddr ev) (eventName ev) (eventRssi ev)
          ev.adv with
      | error e => simp [hg1, hg2, hpd]
      | ok line => simp [hg1, hg2, hpd]

/-- The last-seen component of the whole pipeline is the fold of the
per-event last-seen step. -/
theorem foldl_on_detect_lastSeen (fn fa : Option String) :
    ∀ (evs : List Event) (s : SnifState),
      (evs.foldl (on_detect fn fa) s).lastSeen = evs.foldl (stepLastSeen fn fa) s.lastSeen := by
  intro evs
  induction evs with
  | nil => intro s; rfl
  | cons e t ih =>
    intro s
    rw [List.foldl_cons, List.foldl_cons, ih, on_detect_lastSeen]

/-- Folding the last-seen step from the empty dict yields distinct keys and
the most-recent-accepted-RSSI lookup semantics. -/
theorem lastSeen_foldl_spec (fn fa : Option String) (evs : List Event) :
    ((evs.foldl (stepLastSeen fn fa) []).map Prod.fst).Nodup ∧
    ∀ a, alookup (evs.foldl (stepLastSeen fn fa) []) a = lastAcceptedRssi fn fa evs a := by
  induction evs using List.reverseRecOn with
  | nil => exact ⟨List.nodup_nil, fun a => rfl⟩
  | append_singleton evs e ih =>
    rw [List.foldl_append]
    have hstep : stepLastSeen fn fa (evs.foldl (stepLastSeen fn fa) []) e =
        if acceptsEvent fn fa e = true then
          dictInsert (evs.foldl (stepLastSeen fn fa) []) (eventAddr e) (eventRssi e)
        else evs.foldl (stepLastSeen fn fa) [] := rfl
    constructor
    · show ((stepLastSeen fn fa (evs.foldl (stepLastSeen fn fa) []) e).map Prod.fst).Nodup
      rw [hstep]
      by_cases hA : acceptsEvent fn fa e = true
      · rw [if_pos hA]
        exact nodup_dictInsert _ _ _ ih.1
      · rw [if_neg hA]
        exact ih.1
    · intro a
      rw [lastAcceptedRssi_append]
      show alookup (stepLastSeen fn fa (evs.foldl (stepLastSeen fn fa) []) e) a = _
      rw [hstep]
      by_cases hA : acceptsEvent fn fa e = true
      · rw [if_pos hA, alookup_dictInsert]
        by_cases ha : a = eventAddr e
        · rw [if_pos ha, if_pos ⟨hA, ha.symm⟩]
        · rw [if_neg ha, if_neg (fun hc => ha hc.2.symm), ih.2 a]
      · rw [if_neg hA, if_neg (fun hc => hA hc.1), ih.2 a]

/-- C5: after any event sequence, the session's last-seen map has exactly
one entry per distinct accepted address, and looking an address up yields
precisely the resolved signal strength of its most recent accepted
detection (nothing for addresses with no accepted detection); this holds
after every handler invocation since the sequence is arbitrary. -/
theorem C5_last_seen_map (fn fa : Option String) (w : CsvWriter)
    (f : List (List String)) (evs : List Event) :
    ((runPipeline fn fa w f evs).lastSeen.map Prod.fst).Nodup ∧
    ∀ a, alookup (runPipeline fn fa w f evs).lastSeen a = lastAcceptedRssi fn fa evs a := by
  have hrun : (runPipeline fn fa w f evs).lastSeen = evs.foldl (stepLastSeen fn fa) [] :=
    foldl_on_detect_lastSeen fn fa evs (initState w f)
  rw [hrun]
  exact lastSeen_foldl_spec fn fa evs
